import Mathlib

/-!
Verification of the RBAC + ownership authorization engine and the dynamic model
validation of the Auto-Generated CRUD RBAC platform.

The TypeScript sources embedded here are `src/lib/rbac.ts`, `src/lib/models.ts`,
`src/app/api/data/[modelName]/route.ts` (collection GET) and
`src/app/api/data/[modelName]/[id]/route.ts` (PUT).  JavaScript runtime values are
modelled by `JSValue`; JavaScript numbers are idealized as exact rationals together
with the three non-finite values `NaN`, `Infinity` and `-Infinity` (every concrete
input evaluated below uses small integers, where double arithmetic is exact).
Truthiness (`!x`), strict equality against a string (`x === id`) and the `Number` /
`String` coercions are modelled explicitly, following ECMAScript semantics.
-/

namespace CrudRbac

/-- Source: `export type UserRole = 'Admin' | 'Manager' | 'Viewer'` (src/lib/users.ts). -/
inductive Role where
  | Admin
  | Manager
  | Viewer
deriving DecidableEq, Repr

/-- The CRUD actions of `canPerformAction`: `'create' | 'read' | 'update' | 'delete'`. -/
inductive Action where
  | create
  | read
  | update
  | delete
deriving DecidableEq, Repr

/-- Source: `RBACRule` (src/lib/rbac.ts): each CRUD action optionally carries an allow-list of
roles.  `none` models an absent (`undefined`) entry; `some []` models an entry that is
explicitly the empty array — in JavaScript these are distinguishable by truthiness. -/
structure RBACRule where
  create : Option (List Role)
  read : Option (List Role)
  update : Option (List Role)
  delete : Option (List Role)
deriving DecidableEq, Repr

/-- Embeds `permissions[action]` — dynamic property access on an `RBACRule`. -/
def RBACRule.forAction (r : RBACRule) : Action → Option (List Role)
  | Action.create => r.create
  | Action.read => r.read
  | Action.update => r.update
  | Action.delete => r.delete

/-- Source: `canPerformAction(userRole, action, permissions?)` (src/lib/rbac.ts).

`if (!permissions || !permissions[action]) return userRole === 'Admin';`
— both `!` tests are JavaScript truthiness tests: `undefined` is falsy, but an array,
*including the empty array*, is truthy, so only an absent rule or an absent entry
reaches the Admin default.  Otherwise
`const allowedRoles = permissions[action] || []; return allowedRoles.includes(userRole);`
(the `|| []` alternative is unreachable here since `permissions[action]` is truthy). -/
def canPerformAction (userRole : Role) (action : Action) (permissions : Option RBACRule) :
    Bool :=
  match permissions with
  | none => decide (userRole = Role.Admin)
  | some rule =>
    match rule.forAction action with
    | none => decide (userRole = Role.Admin)
    | some allowedRoles => decide (userRole ∈ allowedRoles)

/-- A primitive JavaScript runtime value: `null`, `undefined`, a boolean, a number
(`NaN`, the infinities, or a finite value idealized as an exact rational), or a
string. -/
inductive JSPrim where
  | pNull
  | pUndefined
  | pBool (b : Bool)
  | pNaN
  | pInf
  | pNegInf
  | pNum (q : ℚ)
  | pStr (s : String)
deriving DecidableEq, Repr

/-- A JavaScript runtime value as supplied by `request.json()` plus `undefined`
(absent property reads).  Dynamic records hold these, so validators and ownership
checks receive them.  Containers are modelled one level deep — their elements are
primitives — which covers everything the embedded code inspects (the validators only
coerce containers whole, via `String(value)` / `Number(value)`). -/
inductive JSValue where
  | prim (p : JSPrim)
  | arr (elems : List JSPrim)
  | obj (props : List (String × JSPrim))
deriving DecidableEq, Repr

/-- The runtime value `null`. -/
def JSValue.vNull : JSValue := JSValue.prim JSPrim.pNull

/-- The runtime value `undefined`. -/
def JSValue.vUndefined : JSValue := JSValue.prim JSPrim.pUndefined

/-- A boolean runtime value. -/
def JSValue.vBool (b : Bool) : JSValue := JSValue.prim (JSPrim.pBool b)

/-- A finite-number runtime value. -/
def JSValue.vNum (q : ℚ) : JSValue := JSValue.prim (JSPrim.pNum q)

/-- A string runtime value. -/
def JSValue.vStr (s : String) : JSValue := JSValue.prim (JSPrim.pStr s)

/-- Falsiness of a primitive: `undefined`, `null`, `false`, `0`, `NaN` and `""`. -/
def primFalsy : JSPrim → Bool
  | JSPrim.pNull => true
  | JSPrim.pUndefined => true
  | JSPrim.pBool b => !b
  | JSPrim.pNaN => true
  | JSPrim.pInf => false
  | JSPrim.pNegInf => false
  | JSPrim.pNum q => decide (q = 0)
  | JSPrim.pStr s => decide (s = "")

/-- JavaScript falsiness: every object and every array is truthy. -/
def jsFalsy : JSValue → Bool
  | JSValue.prim p => primFalsy p
  | JSValue.arr _ => false
  | JSValue.obj _ => false

/-- JavaScript truthiness. -/
def jsTruthy (v : JSValue) : Bool := !(jsFalsy v)

/-- Strict equality `v === s` between a runtime value and a string: no coercion,
`true` exactly for an identical string. -/
def jsStrictEqStr (v : JSValue) (s : String) : Bool :=
  match v with
  | JSValue.prim (JSPrim.pStr t) => decide (t = s)
  | _ => false

/-- A `string | undefined` argument as the runtime value it denotes. -/
def ofOptStr : Option String → JSValue
  | none => JSValue.vUndefined
  | some s => JSValue.vStr s

/-- Source: `checkOwnership(userId, ownerId, userRole)` (src/lib/rbac.ts) at its runtime
semantics, for an arbitrary owner value (the routes feed it `record[ownerField]`,
which is untyped):
`if (userRole === 'Admin') return true; if (!ownerId) return true;
return userId === ownerId;` — note that `!ownerId` is a truthiness test, so it is
`true` both for `undefined` and for the empty string. -/
def checkOwnershipV (userId : String) (ownerId : JSValue) (userRole : Role) : Bool :=
  if userRole = Role.Admin then true
  else if jsFalsy ownerId then true
  else jsStrictEqStr ownerId userId

/-- The function `checkOwnership` at its declared TypeScript signature
`(userId: string, ownerId: string | undefined, userRole: UserRole)`. -/
def checkOwnership (userId : String) (ownerId : Option String) (userRole : Role) : Bool :=
  checkOwnershipV userId (ofOptStr ownerId) userRole

/-- The authenticated principal, as used by the data routes (`user.id`, `user.role`). -/
structure User where
  id : String
  role : Role

/-- An `RBACRule` with no entry for any action (`{}`). -/
def rbacRuleNone : RBACRule :=
  { create := none, read := none, update := none, delete := none }

/-- An `RBACRule` whose `create` entry is explicitly the empty array: `{create: []}`. -/
def rbacRuleCreateEmpty : RBACRule :=
  { create := some [], read := none, update := none, delete := none }

/-- A JavaScript number: `NaN`, the two infinities, or a finite value (idealized as an
exact rational). -/
inductive JSNum where
  | nan
  | inf
  | ninf
  | finite (q : ℚ)
deriving DecidableEq, Repr

/-- ECMAScript `StrWhiteSpaceChar`, restricted to the ASCII space characters. -/
def isJsSpace (c : Char) : Bool :=
  c = ' ' || c = '\t' || c = '\n' || c = '\r' || c = '\x0b' || c = '\x0c'

/-- Decimal digit run to a natural number. -/
def digitsToNat (cs : List Char) : ℕ :=
  cs.foldl (fun n c => n * 10 + (c.toNat - 48)) 0

/-- A non-empty all-decimal-digit string, or failure. -/
def parseDigitsNat (s : String) : Option ℕ :=
  if s ≠ "" ∧ s.toList.all Char.isDigit then some (digitsToNat s.toList) else none

/-- Hexadecimal digit value. -/
def hexDigit (c : Char) : Option ℕ :=
  if c.isDigit then some (c.toNat - 48)
  else if 97 ≤ c.toNat ∧ c.toNat ≤ 102 then some (c.toNat - 87)
  else if 65 ≤ c.toNat ∧ c.toNat ≤ 70 then some (c.toNat - 55)
  else none

/-- A non-empty digit run in base `b` (2, 8 or 16), or failure. -/
def parseRadixNat (b : ℕ) (cs : List Char) : Option ℕ :=
  if cs = [] then none
  else
    cs.foldl
      (fun acc c =>
        match acc, hexDigit c with
        | some n, some d => if d < b then some (b * n + d) else none
        | _, _ => none)
      (some 0)

/-- Strip leading and trailing JavaScript whitespace. -/
def strTrimJs (s : String) : String :=
  String.mk (((s.toList.dropWhile isJsSpace).reverse.dropWhile isJsSpace).reverse)

/-- Split a character list at every occurrence of `c`. -/
def splitOnChar (c : Char) : List Char → List (List Char)
  | [] => [[]]
  | x :: rest =>
    let r := splitOnChar c rest
    if x = c then [] :: r
    else
      match r with
      | [] => [[x]]
      | h :: t => (x :: h) :: t

/-- Parses a `DecimalDigits . DecimalDigits` mantissa (either side may be empty, not both):
the combined digit value together with the number of fractional digits. -/
def parseMantissa (cs : List Char) : Option (ℕ × ℕ) :=
  match splitOnChar '.' cs with
  | [w] => if w ≠ [] ∧ w.all Char.isDigit then some (digitsToNat w, 0) else none
  | [w, f] =>
    if w = [] ∧ f = [] then none
    else if w.all Char.isDigit ∧ f.all Char.isDigit then
      some (digitsToNat (w ++ f), f.length)
    else none
  | _ => none

/-- Signed exponent digits. -/
def parseExponent (s : String) : Option ℤ :=
  match s.toList with
  | '+' :: rest => (parseDigitsNat (String.mk rest)).map Int.ofNat
  | '-' :: rest => (parseDigitsNat (String.mk rest)).map (fun n => -(n : ℤ))
  | _ => (parseDigitsNat s).map Int.ofNat

/-- Split a numeric literal at its first `e`/`E`, if any. -/
def splitAtExpChar (s : String) : String × Option String :=
  let cs := s.toList
  match cs.findIdx? (fun c => c = 'e' || c = 'E') with
  | none => (s, none)
  | some i => (String.mk (cs.take i), some (String.mk (cs.drop (i + 1))))

/-- The exact rational `sign * m * 10 ^ e`, built from integer data only (rational
arithmetic is avoided so that concrete runs reduce inside the kernel). -/
def decValue (sign : ℤ) (m : ℕ) (e : ℤ) : ℚ :=
  if 0 ≤ e then mkRat (sign * (m : ℤ) * (10 : ℤ) ^ e.toNat) 1
  else mkRat (sign * (m : ℤ)) ((10 : ℕ) ^ (-e).toNat)

/-- Unsigned decimal literal with optional exponent, as mantissa digits together with
a power of ten. -/
def parseUnsignedDec (s : String) : Option (ℕ × ℤ) :=
  let p := splitAtExpChar s
  match p.2 with
  | none => (parseMantissa p.1.toList).map (fun mf => (mf.1, -(mf.2 : ℤ)))
  | some es =>
    match parseMantissa p.1.toList, parseExponent es with
    | some mf, some ex => some (mf.1, ex - (mf.2 : ℤ))
    | _, _ => none

/-- ECMAScript `ToNumber` applied to a string (`Number(s)` for a string argument):
trimmed empty input is `0`; a `0x`/`0o`/`0b` radix literal (sign not permitted);
otherwise an optionally signed `Infinity` or decimal literal; anything else is
`NaN`. -/
def strToNum (s : String) : JSNum :=
  let t := strTrimJs s
  if t = "" then JSNum.finite 0
  else
    let cs := t.toList
    let radix : Option (ℕ × List Char) :=
      match cs with
      | '0' :: c :: rest =>
        if c = 'x' || c = 'X' then some (16, rest)
        else if c = 'o' || c = 'O' then some (8, rest)
        else if c = 'b' || c = 'B' then some (2, rest)
        else none
      | _ => none
    match radix with
    | some p =>
      match parseRadixNat p.1 p.2 with
      | some n => JSNum.finite n
      | none => JSNum.nan
    | none =>
      let sb : ℤ × String :=
        match cs with
        | '+' :: rest => (1, String.mk rest)
        | '-' :: rest => (-1, String.mk rest)
        | _ => (1, t)
      if sb.2 = "Infinity" then (if sb.1 = 1 then JSNum.inf else JSNum.ninf)
      else
        match parseUnsignedDec sb.2 with
        | some me => JSNum.finite (decValue sb.1 me.1 me.2)
        | none => JSNum.nan

/-- Decimal digits of `r / d` for `0 ≤ r < d`, up to a fuel bound (JavaScript prints
the shortest round-tripping double; the exact rendering of non-integral values is
outside what the claims observe). -/
def fracDigitsND : ℕ → ℕ → ℕ → String
  | 0, _, _ => ""
  | k + 1, r, d =>
    if r = 0 then ""
    else Nat.repr (r * 10 / d) ++ fracDigitsND k (r * 10 % d) d

/-- Decimal rendering of a rational from its numerator and denominator, used to model
`String(n)` for a finite number (exact for the integers that appear in validation
messages). -/
def ratToString (q : ℚ) : String :=
  let n := q.num.natAbs
  let d := q.den
  let core :=
    if n % d = 0 then Nat.repr (n / d)
    else Nat.repr (n / d) ++ "." ++ fracDigitsND 20 (n % d) d
  if q.num < 0 then "-" ++ core else core

/-- Computes `String(n)` for a JavaScript number. -/
def numToString : JSNum → String
  | JSNum.nan => "NaN"
  | JSNum.inf => "Infinity"
  | JSNum.ninf => "-Infinity"
  | JSNum.finite q => ratToString q

/-- ECMAScript `ToString` on a primitive. -/
def primToString : JSPrim → String
  | JSPrim.pNull => "null"
  | JSPrim.pUndefined => "undefined"
  | JSPrim.pBool b => if b then "true" else "false"
  | JSPrim.pNaN => "NaN"
  | JSPrim.pInf => "Infinity"
  | JSPrim.pNegInf => "-Infinity"
  | JSPrim.pNum q => ratToString q
  | JSPrim.pStr s => s

/-- One element of `Array.prototype.join`: `null` and `undefined` render empty. -/
def arrElemToString : JSPrim → String
  | JSPrim.pNull => ""
  | JSPrim.pUndefined => ""
  | p => primToString p

/-- Embeds `Array.prototype.join(',')` as invoked by `ToString` on an array. -/
def arrJoin : List JSPrim → String
  | [] => ""
  | [p] => arrElemToString p
  | p :: rest => arrElemToString p ++ "," ++ arrJoin rest

/-- ECMAScript `ToString` (`String(value)`): arrays join their elements with `,`,
plain objects render as `[object Object]`. -/
def jsToString : JSValue → String
  | JSValue.prim p => primToString p
  | JSValue.arr elems => arrJoin elems
  | JSValue.obj _ => "[object Object]"

/-- ECMAScript `ToNumber` (`Number(value)`): `undefined` is `NaN`, `null` is `0`,
booleans are `0`/`1`, strings parse as numeric literals, arrays convert through their
joined string form, plain objects convert through `"[object Object]"`, i.e. `NaN`. -/
def toNumber : JSValue → JSNum
  | JSValue.prim JSPrim.pNull => JSNum.finite 0
  | JSValue.prim JSPrim.pUndefined => JSNum.nan
  | JSValue.prim (JSPrim.pBool b) => JSNum.finite (if b then 1 else 0)
  | JSValue.prim JSPrim.pNaN => JSNum.nan
  | JSValue.prim JSPrim.pInf => JSNum.inf
  | JSValue.prim JSPrim.pNegInf => JSNum.ninf
  | JSValue.prim (JSPrim.pNum q) => JSNum.finite q
  | JSValue.prim (JSPrim.pStr s) => strToNum s
  | JSValue.arr elems => strToNum (arrJoin elems)
  | JSValue.obj _ => JSNum.nan

/-- Compares `n < m` for a JavaScript number against a finite bound (`NaN` comparisons are
`false`). -/
def jsLtQ (n : JSNum) (m : ℚ) : Bool :=
  match n with
  | JSNum.nan => false
  | JSNum.inf => false
  | JSNum.ninf => true
  | JSNum.finite q => decide (q < m)

/-- Compares `n > m` for a JavaScript number against a finite bound. -/
def jsGtQ (n : JSNum) (m : ℚ) : Bool :=
  match n with
  | JSNum.nan => false
  | JSNum.inf => true
  | JSNum.ninf => false
  | JSNum.finite q => decide (m < q)

/-- Field types: `'string' | 'number' | 'boolean' | 'date' | 'email' | 'url'`
(src/lib/models.ts). -/
inductive FieldType where
  | string
  | number
  | boolean
  | date
  | email
  | url
deriving DecidableEq, Repr

/-- Source: `FieldValidation` (src/lib/models.ts): all constraints independently optional. -/
structure FieldValidation where
  required : Option Bool
  min : Option ℚ
  max : Option ℚ
  pattern : Option String
  minLength : Option ℕ
  maxLength : Option ℕ
deriving DecidableEq, Repr

/-- The `{}` fallback of `field.validation || {}`. -/
def FieldValidation.empty : FieldValidation :=
  { required := none, min := none, max := none, pattern := none, minLength := none,
    maxLength := none }

/-- Source: `ModelField` (src/lib/models.ts): the legacy `required` flag lives beside the
`validation` block. -/
structure ModelField where
  name : String
  type : FieldType
  validation : Option FieldValidation
  label : Option String
  required : Option Bool
deriving DecidableEq, Repr

/-- Source: `ModelDefinition` (src/lib/models.ts), restricted to the parts the routes read;
`permissions` is kept optional because `canPerformAction` accepts its absence (the
legacy `Model` interface declares it optional). -/
structure ModelDef where
  name : String
  fields : List ModelField
  ownerField : Option String
  permissions : Option RBACRule
  createdAt : String
  updatedAt : String

/-- Embeds the validation fallback `field.validation || {}`. -/
def validationOf (field : ModelField) : FieldValidation :=
  match field.validation with
  | some v => v
  | none => FieldValidation.empty

/-- Embeds the label fallback of the message prefix — truthiness fallback, so an empty-string label
also falls back to the name. -/
def fieldLabel (field : ModelField) : String :=
  match field.label with
  | some l => if l = "" then field.name else l
  | none => field.name

/-- Embeds `value === null || value === undefined || value === ''` — strict comparisons, so
only these three values count as empty. -/
def isEmptyVal : JSValue → Bool
  | JSValue.prim JSPrim.pNull => true
  | JSValue.prim JSPrim.pUndefined => true
  | JSValue.prim (JSPrim.pStr s) => decide (s = "")
  | _ => false

/-- Embeds `validation.required || field.required`, as consumed by the truthiness test
`if (isRequired && isEmpty)`. -/
def isRequiredOf (field : ModelField) : Bool :=
  (validationOf field).required.getD false || field.required.getD false

/-- The uncaught exception of the validator: `new RegExp(pattern)` throwing
`SyntaxError`. -/
inductive JSError where
  | regexInvalid
deriving DecidableEq, Repr

/-- ASCII letter. -/
def isAlpha (c : Char) : Bool :=
  (65 ≤ c.toNat && c.toNat ≤ 90) || (97 ≤ c.toNat && c.toNat ≤ 122)

/-- Literal atoms of the validated pattern fragment: letters, digits and a whitelist
of characters that JavaScript treats as plain literals outside a class. -/
def reLiteralChar (c : Char) : Bool :=
  isAlpha c || c.isDigit ||
  c = ' ' || c = '_' || c = '-' || c = ',' || c = ';' || c = ':' || c = '!' ||
  c = '@' || c = '#' || c = '%' || c = '&' || c = '=' || c = '<' || c = '>' ||
  c = '~' || c = '/' || c.toNat = 34 || c.toNat = 39

/-- Escapes of the validated fragment: the class escapes `d D w W s S b B`, the
control escapes `n r t f v 0`, and the identity escapes of every pattern special
character — all valid after a backslash in a JavaScript pattern. -/
def reEscapeChar (c : Char) : Bool :=
  c = 'd' || c = 'D' || c = 'w' || c = 'W' || c = 's' || c = 'S' ||
  c = 'b' || c = 'B' || c = 'n' || c = 'r' || c = 't' || c = 'f' || c = 'v' ||
  c = '0' || c = '.' || c = '*' || c = '+' || c = '?' || c = '(' || c = ')' ||
  c = '[' || c = ']' || c.toNat = 123 || c.toNat = 125 || c = '|' || c = '^' ||
  c = '$' || c = '\\' || c = '/' || c = '-'

/-- A plain character inside a character class: anything except the terminator and
the escape introducer (every such character is a valid class atom in JavaScript). -/
def reClassChar (c : Char) : Bool :=
  !(c = ']') && !(c = '\\')

/-- Parses the body of a character class after `[` (and an optional leading `^`), up
to the closing bracket: plain atoms, whitelisted escapes, and ranges `c-d` of plain
atoms with in-order code units (out-of-order ranges are a JavaScript
`SyntaxError`).  Returns the input after the class, or failure. -/
def reParseClassBody : List Char → Option (List Char)
  | [] => none
  | ']' :: rest => some rest
  | '\\' :: [] => none
  | '\\' :: c :: rest =>
    if reEscapeChar c then
      match rest with
      | '-' :: d :: _ => if d = ']' then reParseClassBody rest else none
      | _ => reParseClassBody rest
    else none
  | c :: '-' :: d :: rest =>
    if reClassChar c then
      if d = ']' then reParseClassBody ('-' :: d :: rest)
      else if reClassChar d && decide (c.toNat ≤ d.toNat) then reParseClassBody rest
      else none
    else none
  | c :: rest => if reClassChar c then reParseClassBody rest else none

/-- Consumes the lazy marker `?` of a quantifier, if present. -/
def reLazy : List Char → List Char
  | '?' :: rest => rest
  | cs => cs

/-- A run of decimal digits and the remainder. -/
def reTakeDigits (cs : List Char) : List Char × List Char :=
  (cs.takeWhile Char.isDigit, cs.dropWhile Char.isDigit)

/-- Parses a brace quantifier after its opening brace: `{m}`, `{m,}` or `{m,n}` with
`m ≤ n` (an out-of-order pair is a JavaScript `SyntaxError`); bounds are kept under
ten digits, comfortably inside JavaScript's accepted range. -/
def reParseBraces (cs : List Char) : Option (List Char) :=
  let p := reTakeDigits cs
  if p.1 = [] ∨ 9 < p.1.length then none
  else
    match p.2 with
    | '}' :: rest => some (reLazy rest)
    | ',' :: '}' :: rest => some (reLazy rest)
    | ',' :: rest2 =>
      let q := reTakeDigits rest2
      if q.1 = [] ∨ 9 < q.1.length then none
      else
        match q.2 with
        | '}' :: rest => if digitsToNat p.1 ≤ digitsToNat q.1 then some (reLazy rest) else none
        | _ => none
    | _ => none

/-- Parses an optional quantifier (with optional lazy marker) after a quantifiable
atom. -/
def reParseQuant : List Char → Option (List Char)
  | '*' :: rest => some (reLazy rest)
  | '+' :: rest => some (reLazy rest)
  | '?' :: rest => some (reLazy rest)
  | '{' :: rest => reParseBraces rest
  | cs => some cs

/-- Whether the input begins with a quantifier. -/
def reQuantStart : List Char → Bool
  | '*' :: _ => true
  | '+' :: _ => true
  | '?' :: _ => true
  | '{' :: _ => true
  | _ => false

/-- Recursive-descent validation of a pattern body: sequences of terms and
alternation bars, where a term is a quantifiable atom (literal, `.`, whitelisted
escape, plain or `?:` group, character class) with an optional quantifier, or an
unquantified anchor.  Stops at a closing parenthesis (returned to the caller) or at
the end; a quantifier with nothing to repeat, an unmatched parenthesis, a dangling
escape or exhausted fuel is a failure.  Fuel is structural so that concrete runs
reduce inside the kernel; one extra unit per character always suffices, and running
out only rejects. -/
def reParseSeq : ℕ → List Char → Option (List Char)
  | 0, _ => none
  | _, [] => some []
  | _, ')' :: rest => some (')' :: rest)
  | fuel + 1, '|' :: rest => reParseSeq fuel rest
  | fuel + 1, '^' :: rest =>
    if reQuantStart rest then none else reParseSeq fuel rest
  | fuel + 1, '$' :: rest =>
    if reQuantStart rest then none else reParseSeq fuel rest
  | fuel + 1, '.' :: rest =>
    match reParseQuant rest with
    | some rest2 => reParseSeq fuel rest2
    | none => none
  | _ + 1, '\\' :: [] => none
  | fuel + 1, '\\' :: c :: rest =>
    if reEscapeChar c then
      match reParseQuant rest with
      | some rest2 => reParseSeq fuel rest2
      | none => none
    else none
  | fuel + 1, '(' :: rest =>
    let body :=
      match rest with
      | '?' :: ':' :: rest2 => rest2
      | _ => rest
    match reParseSeq fuel body with
    | some (')' :: rest3) =>
      match reParseQuant rest3 with
      | some rest4 => reParseSeq fuel rest4
      | none => none
    | _ => none
  | fuel + 1, '[' :: rest =>
    let body :=
      match rest with
      | '^' :: rest2 => rest2
      | _ => rest
    match reParseClassBody body with
    | some rest3 =>
      match reParseQuant rest3 with
      | some rest4 => reParseSeq fuel rest4
      | none => none
    | none => none
  | fuel + 1, c :: rest =>
    if reLiteralChar c then
      match reParseQuant rest with
      | some rest2 => reParseSeq fuel rest2
      | none => none
    else none

/-- Conservative validity check for a JavaScript pattern: every accepted pattern
lies in a fragment of the grammar that the `RegExp` constructor accepts, while the
rejected set contains every genuinely invalid pattern — unmatched or unterminated
groups and classes, dangling escapes, quantifiers with nothing to repeat,
out-of-order class ranges, out-of-order brace quantifiers.  Patterns outside the
fragment are rejected even when JavaScript would accept them, so acceptance
under-approximates real validity; no theorem asserts a thrown error at an accepted
or fragment-external pattern. -/
def regExpValid (p : String) : Bool :=
  match reParseSeq (p.length + 1) p.toList with
  | some [] => true
  | _ => false

/-- Model of the JavaScript `RegExp` constructor: construction fails (a thrown
`SyntaxError`) on every pattern outside the conservatively validated fragment —
in particular on every genuinely invalid pattern — and a successful construction,
which in JavaScript only happens for valid patterns, yields a matcher.  No claim in
this development depends on the verdict of `test` for a well-formed pattern, so the
matcher's verdict is modelled as accepting. -/
def regExpCompile (p : String) : Option (String → Bool) :=
  if regExpValid p then some (fun _ => true) else none

/-- The `number` block of `validateField`: `const num = Number(value);
if (isNaN(num)) ...; if (validation.min !== undefined && num < validation.min) ...;
if (validation.max !== undefined && num > validation.max) ...` — bounds are strict
inequalities on the violation side, hence inclusive bounds. -/
def numberCheck (value : JSValue) (validation : FieldValidation) (lbl : String) :
    Option String :=
  let num := toNumber value
  let afterMin : Option String :=
    match validation.max with
    | some mx =>
      if jsGtQ num mx then some (lbl ++ " must be at most " ++ ratToString mx) else none
    | none => none
  if num = JSNum.nan then some (lbl ++ " must be a number")
  else
    match validation.min with
    | some mn =>
      if jsLtQ num mn then some (lbl ++ " must be at least " ++ ratToString mn)
      else afterMin
    | none => afterMin

/-- The `pattern` step of the shared string block: `if (validation.pattern)` is a
truthiness test (an empty pattern string is skipped); `new RegExp(pattern)` may
throw. -/
def patternCheck (str : String) (validation : FieldValidation) (lbl : String) :
    Except JSError (Option String) :=
  match validation.pattern with
  | none => Except.ok none
  | some p =>
    if p = "" then Except.ok none
    else
      match regExpCompile p with
      | none => Except.error JSError.regexInvalid
      | some test =>
        if test str then Except.ok none else Except.ok (some (lbl ++ " format is invalid"))

/-- The shared `string`/`email`/`url` block of `validateField`:
`const str = String(value)`, then `minLength`, `maxLength`, `pattern` in order, each
returning on failure. -/
def stringCheck (value : JSValue) (validation : FieldValidation) (lbl : String) :
    Except JSError (Option String) :=
  let str := jsToString value
  let afterMin : Except JSError (Option String) :=
    match validation.maxLength with
    | some n =>
      if n < str.length then
        Except.ok (some (lbl ++ " must be at most " ++ Nat.repr n ++ " characters"))
      else patternCheck str validation lbl
    | none => patternCheck str validation lbl
  match validation.minLength with
  | some n =>
    if str.length < n then
      Except.ok (some (lbl ++ " must be at least " ++ Nat.repr n ++ " characters"))
    else afterMin
  | none => afterMin

/-- Inner dot of the email regex domain part: a `.` that is neither the first nor the
last character position, giving the `[^\s@]+\.[^\s@]+` shape. -/
def hasInnerDot (cs : List Char) : Bool :=
  (List.range cs.length).any
    (fun i => decide (0 < i) && decide (i + 1 < cs.length) && decide (cs.getD i ' ' = '.'))

/-- The email regex `/^[^\s@]+@[^\s@]+\.[^\s@]+$/` as a string predicate: exactly one
`@`; a non-empty whitespace-free local part; a whitespace-free domain containing a
dot with non-empty sides (whitespace is modelled as the ASCII space characters). -/
def emailShapeOk (s : String) : Bool :=
  match splitOnChar '@' s.toList with
  | [l, d] => !l.isEmpty && l.all (fun c => !isJsSpace c) && d.all (fun c => !isJsSpace c)
      && hasInnerDot d
  | _ => false

/-- A scheme character after the first: letter, digit, `+`, `-` or `.`. -/
def isSchemeChar (c : Char) : Bool :=
  isAlpha c || c.isDigit || c = '+' || c = '-' || c = '.'

/-- Model of `new URL(s)` succeeding: the string begins with a well-formed scheme
followed by `:` (the WHATWG special-scheme host rules are not modelled; no claim
constrains URL validity). -/
def urlParses (s : String) : Bool :=
  match s.toList.findIdx? (fun c => c = ':') with
  | none => false
  | some i =>
    match s.toList.take i with
    | [] => false
    | c :: rest => isAlpha c && rest.all isSchemeChar

/-- Model of `new Date(s)` yielding a valid time: the ISO calendar forms `YYYY`,
`YYYY-MM` and `YYYY-MM-DD` with in-range components (no claim constrains date
parsing). -/
def dateParses (s : String) : Bool :=
  match splitOnChar '-' s.toList with
  | [y] => decide (y.length = 4) && y.all Char.isDigit
  | [y, m] =>
    decide (y.length = 4) && y.all Char.isDigit && decide (m.length = 2)
      && m.all Char.isDigit && decide (1 ≤ digitsToNat m) && decide (digitsToNat m ≤ 12)
  | [y, m, d] =>
    decide (y.length = 4) && y.all Char.isDigit && decide (m.length = 2)
      && m.all Char.isDigit && decide (1 ≤ digitsToNat m) && decide (digitsToNat m ≤ 12)
      && decide (d.length = 2) && d.all Char.isDigit && decide (1 ≤ digitsToNat d)
      && decide (digitsToNat d ≤ 31)
  | _ => false

/-- The `boolean` block guard:
`typeof value !== 'boolean' && value !== 'true' && value !== 'false'`. -/
def boolValueOk : JSValue → Bool
  | JSValue.prim (JSPrim.pBool _) => true
  | JSValue.prim (JSPrim.pStr s) => decide (s = "true") || decide (s = "false")
  | _ => false

/-- The `email` block (runs after the shared string block). -/
def emailCheck (value : JSValue) (lbl : String) : Option String :=
  if emailShapeOk (jsToString value) then none else some (lbl ++ " must be a valid email")

/-- The `url` block (runs after the shared string block): `try { new URL(...) }
catch { ... }`. -/
def urlCheck (value : JSValue) (lbl : String) : Option String :=
  if urlParses (jsToString value) then none else some (lbl ++ " must be a valid URL")

/-- The `date` block. -/
def dateCheck (value : JSValue) (lbl : String) : Option String :=
  if dateParses (jsToString value) then none else some (lbl ++ " must be a valid date")

/-- The `boolean` block. -/
def boolCheck (value : JSValue) (lbl : String) : Option String :=
  if boolValueOk value then none else some (lbl ++ " must be a boolean value")

/-- Source: `validateField(value, field)` (src/lib/models.ts).  `Except.error` models the one
uncaught exception path — `new RegExp(pattern)` throwing on an invalid pattern —
while `Except.ok` carries the source's `string | null` result.  The source is a
sequence of type-guarded blocks, each returning on its first failure; the guards are
mutually exclusive except that `string`/`email`/`url` share the length-and-pattern
block before `email`/`url` run their own checks, which the type dispatch below
reproduces exactly. -/
def validateField (value : JSValue) (field : ModelField) : Except JSError (Option String) :=
  let validation := validationOf field
  let lbl := fieldLabel field
  if isRequiredOf field && isEmptyVal value then Except.ok (some (lbl ++ " is required"))
  else if isEmptyVal value then Except.ok none
  else
    match field.type with
    | FieldType.number => Except.ok (numberCheck value validation lbl)
    | FieldType.string => stringCheck value validation lbl
    | FieldType.email =>
      match stringCheck value validation lbl with
      | Except.ok none => Except.ok (emailCheck value lbl)
      | r => r
    | FieldType.url =>
      match stringCheck value validation lbl with
      | Except.ok none => Except.ok (urlCheck value lbl)
      | r => r
    | FieldType.date => Except.ok (dateCheck value lbl)
    | FieldType.boolean => Except.ok (boolCheck value lbl)

instance {α β : Type} [DecidableEq α] [DecidableEq β] : DecidableEq (Except α β) := fun a b =>
  match a, b with
  | Except.ok x, Except.ok y =>
    decidable_of_iff (x = y) ⟨fun h => by rw [h], fun h => by injection h⟩
  | Except.ok _, Except.error _ => isFalse (fun h => Except.noConfusion h)
  | Except.error _, Except.ok _ => isFalse (fun h => Except.noConfusion h)
  | Except.error e, Except.error f =>
    decidable_of_iff (e = f) ⟨fun h => by rw [h], fun h => by injection h⟩

/-- A dynamic record: property names to runtime values.  Lookup takes the first
binding (JavaScript object keys are unique; association lists with a duplicate key
behave as if only the first binding existed). -/
abbrev RecordV := List (String × JSValue)

/-- Property lookup on a record: first binding with the given name, if any. -/
def recLookup (r : RecordV) (k : String) : Option JSValue :=
  match r with
  | [] => none
  | p :: rest => if p.1 = k then some p.2 else recLookup rest k

/-- Embeds `record[k]`: an absent property reads as `undefined`. -/
def getField (r : RecordV) (k : String) : JSValue :=
  match recLookup r k with
  | some v => v
  | none => JSValue.vUndefined

/-- Embeds `errors[k] = e` on a name-keyed mapping kept in insertion order. -/
def setErr (errs : List (String × String)) (k e : String) : List (String × String) :=
  if errs.any (fun p => decide (p.1 = k)) then
    errs.map (fun p => if p.1 = k then (k, e) else p)
  else errs ++ [(k, e)]

/-- Embeds `errors[k]` on the error mapping. -/
def errLookup (errs : List (String × String)) (k : String) : Option String :=
  match errs with
  | [] => none
  | p :: rest => if p.1 = k then some p.2 else errLookup rest k

/-- The field loop of `validateModelData`, carrying the error mapping. -/
def validateFields (data : RecordV) :
    List ModelField → List (String × String) → Except JSError (List (String × String))
  | [], errs => Except.ok errs
  | field :: rest, errs =>
    match validateField (getField data field.name) field with
    | Except.error e => Except.error e
    | Except.ok (some msg) => validateFields data rest (setErr errs field.name msg)
    | Except.ok none => validateFields data rest errs

/-- Source: `validateModelData(data, model)` (src/lib/models.ts): iterate the model's fields
in declaration order, storing each field's first error under `errors[field.name]`. -/
def validateModelData (data : RecordV) (model : ModelDef) :
    Except JSError (List (String × String)) :=
  validateFields data model.fields []

/-- Object spread `{...a, ...b}`: `a`'s properties in order with `b`'s overriding
values, followed by `b`'s new properties in order. -/
def mergeRecords (a b : RecordV) : RecordV :=
  (a.map (fun p =>
    match recLookup b p.1 with
    | some v => (p.1, v)
    | none => p))
    ++ b.filter (fun p => (recLookup a p.1).isNone)

/-- Embeds `delete r[k]`. -/
def removeField (r : RecordV) (k : String) : RecordV :=
  r.filter (fun p => !(decide (p.1 = k)))

/-- The ownership-filter stage of `GET /api/data/[modelName]`:
`let filteredData = data; if (model.ownerField && user.role !== 'Admin')
filteredData = data.filter((record) => { const ownerId = record[model.ownerField!];
return !ownerId || ownerId === user.id; });` — the guard is a truthiness test on
`ownerField`. -/
def getCollectionFiltered (user : User) (model : ModelDef) (data : List RecordV) :
    List RecordV :=
  match model.ownerField with
  | some f =>
    if f ≠ "" ∧ user.role ≠ Role.Admin then
      data.filter (fun record =>
        jsFalsy (getField record f) || jsStrictEqStr (getField record f) user.id)
    else data
  | none => data

/-- The outcome of the `PUT` handler, by response class. -/
inductive PutOutcome where
  | notAuthenticated
  | modelNotFound
  | permissionDenied
  | recordNotFound
  | validationFailed (errs : List (String × String))
  | serverError
  | ok (record : RecordV)
deriving DecidableEq, Repr

/-- The ownership gate of the single-record routes: `if (model.ownerField) { const
ownerId = existingRecord[model.ownerField]; if (!checkOwnership(user.id, ownerId,
user.role)) ... }` — a truthiness guard on `ownerField`, with the stored owner value
passed to `checkOwnership` untyped. -/
def ownershipGate (user : User) (model : ModelDef) (record : RecordV) : Bool :=
  match model.ownerField with
  | some f => if f = "" then true else checkOwnershipV user.id (getField record f) user.role
  | none => true

/-- Source: `PUT /api/data/[modelName]/[id]` (src/app/api/data/[modelName]/[id]/route.ts)
with the request body already parsed as `data` and the store reads supplied as
arguments: authentication, model lookup, `canPerformAction(role, 'update')`, record
lookup, the ownership gate, validation of `{...existingRecord, ...data}`, the
owner-strip step `if (model.ownerField && data[model.ownerField]) delete
data[model.ownerField]` (a truthiness test on the payload's owner value), and finally
`updateRecord`'s `{ ...existing, ...data, id }`. -/
def putRecord (user : Option User) (model : Option ModelDef) (existing : Option RecordV)
    (id : String) (data : RecordV) : PutOutcome :=
  match user with
  | none => PutOutcome.notAuthenticated
  | some u =>
    match model with
    | none => PutOutcome.modelNotFound
    | some m =>
      if !(canPerformAction u.role Action.update m.permissions) then
        PutOutcome.permissionDenied
      else
        match existing with
        | none => PutOutcome.recordNotFound
        | some ex =>
          if !(ownershipGate u m ex) then PutOutcome.permissionDenied
          else
            match validateModelData (mergeRecords ex data) m with
            | Except.error _ => PutOutcome.serverError
            | Except.ok errs =>
              if errs ≠ [] then PutOutcome.validationFailed errs
              else
                let data2 :=
                  match m.ownerField with
                  | some f =>
                    if f ≠ "" ∧ jsTruthy (getField data f) = true then removeField data f
                    else data
                  | none => data
                PutOutcome.ok (mergeRecords (mergeRecords ex data2) [("id", JSValue.vStr id)])

/-- The declared `min` bound, if any, is satisfied inclusively. -/
def minPasses (validation : FieldValidation) (q : ℚ) : Bool :=
  match validation.min with
  | some m => decide (m ≤ q)
  | none => true

/-- The declared `max` bound, if any, is satisfied inclusively. -/
def maxPasses (validation : FieldValidation) (q : ℚ) : Bool :=
  match validation.max with
  | some m => decide (q ≤ m)
  | none => true

/-- A string-typed required field named `name` (no validation block, legacy
`required` flag), as in the repository's mock `Product` model. -/
def nameField : ModelField :=
  { name := "name", type := FieldType.string, validation := none, label := none,
    required := some true }

/-- Permissions `{update: [Manager]}`. -/
def updateManagerRule : RBACRule :=
  { create := none, read := none, update := some [Role.Manager], delete := none }

/-- A model with one required field, an `ownerId` owner field and Manager update
permission. -/
def docModel : ModelDef :=
  { name := "Doc", fields := [nameField], ownerField := some "ownerId",
    permissions := some updateManagerRule, createdAt := "", updatedAt := "" }

/-- A stored record of `docModel` owned by `m1`. -/
def docRecord : RecordV :=
  [("id", JSValue.vStr "r1"), ("name", JSValue.vStr "Widget"), ("ownerId", JSValue.vStr "m1")]

/-- The requester `m1`, a Manager and the owner of `docRecord`. -/
def managerM1 : User := { id := "m1", role := Role.Manager }

/-- The record produced by the falsy-owner update of `docRecord`:
`{...existing, ...{ownerId: ""}, id}`. -/
def docRecordOverwritten : RecordV :=
  mergeRecords (mergeRecords docRecord [("ownerId", JSValue.vStr "")]) [("id", JSValue.vStr "r1")]

/-- A record whose `ownerId` is present and the empty string. -/
def emptyOwnerRecord : RecordV := [("ownerId", JSValue.vStr "")]

/-- A record owned by `m1`, and one owned by nobody, for the collection filter. -/
def ownedByM1Record : RecordV := [("ownerId", JSValue.vStr "m1"), ("x", JSValue.vNum 1)]

/-- A record owned by a different manager `m2`. -/
def ownedByM2Record : RecordV := [("ownerId", JSValue.vStr "m2")]

/-- A number-typed field `price` with inclusive bounds 10 and 20. -/
def priceField : ModelField :=
  { name := "price", type := FieldType.number,
    validation := some { FieldValidation.empty with min := some 10, max := some 20 },
    label := none, required := none }

/-- A number-typed field with no validation block. -/
def plainNumberField : ModelField :=
  { name := "n", type := FieldType.number, validation := none, label := none,
    required := none }

/-- A model with a single optional string field, used where a trivially valid model
is needed. -/
def optionalModel : ModelDef :=
  { name := "Simple",
    fields := [{ name := "note", type := FieldType.string, validation := none,
                 label := none, required := none }],
    ownerField := none, permissions := none, createdAt := "", updatedAt := "" }

/-- A model with one required field and no owner field, with Manager update
permission. -/
def reqOnlyModel : ModelDef :=
  { name := "Req", fields := [nameField], ownerField := none,
    permissions := some updateManagerRule, createdAt := "", updatedAt := "" }

-- ===== Theorems =====

/-- Strict equality `v === s` holds exactly for the identical string value. -/
theorem jsStrictEqStr_eq_true_iff (v : JSValue) (s : String) :
    jsStrictEqStr v s = true ↔ v = JSValue.vStr s := by
  cases v with
  | prim p => cases p <;> simp [jsStrictEqStr, JSValue.vStr]
  | arr elems => simp [jsStrictEqStr, JSValue.vStr]
  | obj props => simp [jsStrictEqStr, JSValue.vStr]

/-- For a non-Admin requester, `checkOwnership` is exactly the collection filter's
`!ownerId || ownerId === user.id`. -/
theorem checkOwnershipV_ne_admin (uid : String) (v : JSValue) (role : Role)
    (h : role ≠ Role.Admin) :
    checkOwnershipV uid v role = (jsFalsy v || jsStrictEqStr v uid) := by
  unfold checkOwnershipV
  rw [if_neg h]
  cases hv : jsFalsy v <;> simp [hv]

/-- C1, counterexample: the claim asserts that an explicitly empty role list behaves
like an absent entry, restricting the action to Admin — but on the rule
`{create: []}` the code denies even Admin, because the empty array is truthy and the
resolver falls through to `[].includes('Admin')`, which is `false`. -/
theorem c1_empty_list_denies_admin :
    canPerformAction Role.Admin Action.create (some rbacRuleCreateEmpty) = false := rfl

/-- C1, amended: for every role and action, `canPerformAction` returns `true` iff the
role is Admin whenever the rule is absent entirely or has no entry for the action;
an entry holding an explicitly empty role list instead behaves as an explicit empty
allow-list and denies every role, Admin included. -/
theorem c1_secure_default (role : Role) (action : Action) (ruleAbsent ruleEmpty : RBACRule)
    (h0 : ruleAbsent.forAction action = none)
    (h1 : ruleEmpty.forAction action = some []) :
    (canPerformAction role action none = true ↔ role = Role.Admin)
    ∧ (canPerformAction role action (some ruleAbsent) = true ↔ role = Role.Admin)
    ∧ canPerformAction role action (some ruleEmpty) = false := by
  refine ⟨?_, ?_, ?_⟩
  · simp [canPerformAction]
  · simp [canPerformAction, h0]
  · simp [canPerformAction, h1]

/-- C1, witness for `c1_secure_default` at `role = Manager`, `action = create`,
`ruleAbsent = {}`, `ruleEmpty = {create: []}`. -/
theorem c1_secure_default_witness :
    (canPerformAction Role.Manager Action.create none = true ↔ Role.Manager = Role.Admin)
    ∧ (canPerformAction Role.Manager Action.create (some rbacRuleNone) = true
        ↔ Role.Manager = Role.Admin)
    ∧ canPerformAction Role.Manager Action.create (some rbacRuleCreateEmpty) = false :=
  c1_secure_default Role.Manager Action.create rbacRuleNone rbacRuleCreateEmpty rfl rfl

/-- C2: the code treats an explicitly empty-string `ownerId` as *absent*, not present:
`!ownerId` is a truthiness test and `!''` is `true`, so `checkOwnership(u, '', role)`
returns `true` for every requester id and every role.  The claim (and the
repository's own test, which expects `checkOwnership(userId, '', 'Viewer')` to be
`false` for `userId = 'user-789'`) requires `true` only when the requester id is also
the empty string.  The second conjunct evaluates the code at exactly that failing
test input. -/
theorem c2_empty_owner_grants_all (userId : String) (role : Role) :
    checkOwnership userId (some "") role = true
    ∧ checkOwnership "user-789" (some "") Role.Viewer = true := by
  constructor
  · cases role <;>
      simp [checkOwnership, checkOwnershipV, ofOptStr, jsFalsy, JSValue.vStr, primFalsy]
  · rfl

/-- C4: with an explicit non-empty role list for an action, the resolver returns
exactly set membership — it does not special-case Admin and does not consult the role
hierarchy; in particular Admin is denied by a list that omits it, such as
`{create: [Manager]}`. -/
theorem c4_explicit_list_is_exact_membership (r : Role) (action : Action)
    (rule : RBACRule) (roles : List Role)
    (hget : rule.forAction action = some roles)
    (hne : roles ≠ [])
    (hadm : Role.Admin ∉ roles) :
    (canPerformAction r action (some rule) = true ↔ r ∈ roles)
    ∧ canPerformAction Role.Admin action (some rule) = false := by
  constructor
  · simp [canPerformAction, hget]
  · simp [canPerformAction, hget, hadm]

/-- C4, witness for `c4_explicit_list_is_exact_membership` on the rule
`{create: [Manager]}`. -/
theorem c4_explicit_list_witness :
    (canPerformAction Role.Manager Action.create
        (some { create := some [Role.Manager], read := none, update := none, delete := none })
          = true
      ↔ Role.Manager ∈ [Role.Manager])
    ∧ canPerformAction Role.Admin Action.create
        (some { create := some [Role.Manager], read := none, update := none, delete := none })
          = false :=
  c4_explicit_list_is_exact_membership Role.Manager Action.create
    { create := some [Role.Manager], read := none, update := none, delete := none }
    [Role.Manager] rfl (by decide) (by decide)

/-- C5: Admin fully bypasses ownership — `checkOwnership` is `true` for Admin for
every requester id and every owner id, including absent and the empty string — and an
absent owner value makes the record public: `checkOwnership` is `true` for every
requester and every role when `ownerId` is absent. -/
theorem c5_admin_bypass_and_public_records (userId : String) (ownerId : Option String)
    (uid : String) (role : Role) :
    checkOwnership userId ownerId Role.Admin = true
    ∧ checkOwnership uid none role = true := by
  constructor
  · simp [checkOwnership, checkOwnershipV]
  · cases role <;>
      simp [checkOwnership, checkOwnershipV, ofOptStr, jsFalsy, JSValue.vUndefined, primFalsy]

/-- C6, counterexample: the claim characterizes the retained records as those whose
owner value is absent or equals the requester's id — but a record whose owner value
is present and the empty string is retained for a Manager whose id is `"u1"`, because
the filter's `!ownerId` truthiness test treats `""` as absent. -/
theorem c6_counterexample :
    getCollectionFiltered { id := "u1", role := Role.Manager } docModel [emptyOwnerRecord]
        = [emptyOwnerRecord]
    ∧ getField emptyOwnerRecord "ownerId" = JSValue.vStr ""
    ∧ ("" : String) ≠ "u1"
    ∧ getField emptyOwnerRecord "ownerId" ≠ JSValue.vUndefined :=
  ⟨by decide, rfl, by decide, by decide⟩

/-- C6, amended: on a model with a (truthy) `ownerField`, the read-collection filter
is extensionally equal to the per-record Ownership Resolver `checkOwnership`; an
Admin requester retains every record unconditionally; and a non-Admin requester
retains a record iff its owner value is falsy — absent, `null`, the empty string,
`0`, `false` or `NaN` — or strictly equals the requester's id. -/
theorem c6_filter_matches_check_ownership (user : User) (model : ModelDef) (f : String)
    (data : List RecordV) (r : RecordV)
    (hf : model.ownerField = some f) (hfne : f ≠ "") (hr : r ∈ data) :
    (getCollectionFiltered user model data
        = data.filter (fun rec => checkOwnershipV user.id (getField rec f) user.role))
    ∧ (user.role = Role.Admin → getCollectionFiltered user model data = data)
    ∧ (user.role ≠ Role.Admin →
        (r ∈ getCollectionFiltered user model data
          ↔ (jsFalsy (getField r f) = true ∨ getField r f = JSValue.vStr user.id))) := by
  by_cases hrole : user.role = Role.Admin
  · refine ⟨?_, fun _ => ?_, fun hne => absurd hrole hne⟩
    · simp only [getCollectionFiltered, hf]
      rw [if_neg (by simp [hrole])]
      have hp : (fun rec => checkOwnershipV user.id (getField rec f) user.role)
          = fun (_ : RecordV) => true := by
        funext rec
        simp [checkOwnershipV, hrole]
      rw [hp, List.filter_true]
    · simp only [getCollectionFiltered, hf]
      rw [if_neg (by simp [hrole])]
  · have hfilter : getCollectionFiltered user model data
        = data.filter (fun rec =>
            jsFalsy (getField rec f) || jsStrictEqStr (getField rec f) user.id) := by
      simp only [getCollectionFiltered, hf]
      rw [if_pos ⟨hfne, hrole⟩]
    refine ⟨?_, fun h => absurd h hrole, fun _ => ?_⟩
    · rw [hfilter]
      refine (List.filter_congr ?_).symm
      intro rec _
      exact checkOwnershipV_ne_admin user.id (getField rec f) user.role hrole
    · rw [hfilter, List.mem_filter]
      simp [hr, jsStrictEqStr_eq_true_iff]

/-- C6, witness for `c6_filter_matches_check_ownership`: Manager `m1` over three
records (owned by `m1`, owned by `m2`, empty-string owner). -/
theorem c6_filter_matches_check_ownership_witness :
    getCollectionFiltered managerM1 docModel [ownedByM1Record, ownedByM2Record, emptyOwnerRecord]
      = List.filter
          (fun rec => checkOwnershipV managerM1.id (getField rec "ownerId") managerM1.role)
          [ownedByM1Record, ownedByM2Record, emptyOwnerRecord] :=
  (c6_filter_matches_check_ownership managerM1 docModel "ownerId"
    [ownedByM1Record, ownedByM2Record, emptyOwnerRecord] ownedByM1Record rfl (by decide)
    (by decide)).1

/-- On a non-empty value, a number-typed field runs exactly the number block. -/
theorem validateField_number_eq (v : JSValue) (field : ModelField)
    (htype : field.type = FieldType.number) (hne : isEmptyVal v = false) :
    validateField v field
      = Except.ok (numberCheck v (validationOf field) (fieldLabel field)) := by
  simp [validateField, hne, htype]

/-- C7, counterexample: `"Infinity"` is a non-empty value that does not coerce to a
finite number, yet `validateField` reports no error at all on an unbounded number
field — the code tests `isNaN(num)`, not finiteness, so the claimed
"must be a number" failure does not occur. -/
theorem c7_counterexample :
    isEmptyVal (JSValue.vStr "Infinity") = false
    ∧ toNumber (JSValue.vStr "Infinity") = JSNum.inf
    ∧ validateField (JSValue.vStr "Infinity") plainNumberField = Except.ok none :=
  ⟨rfl, by decide, by decide⟩

/-- C7, amended: for a number-typed field and non-empty values, `validateField`
fails with "<field> must be a number" exactly when the value coerces to `NaN`
(a value coercing to `±Infinity` passes the type check and can only be caught by a
declared bound); declared `min`/`max` bounds are enforced inclusively — a value
strictly below `min` fails with the dedicated minimum message, a value satisfying
both bounds (boundary equality included) passes, and a value strictly above `max`
fails with the dedicated maximum message. -/
theorem c7_number_validation (field : ModelField) (vna vlo veq vhi : JSValue)
    (qlo qeq qhi mlo mhi : ℚ)
    (htype : field.type = FieldType.number)
    (hnaE : isEmptyVal vna = false) (hna : toNumber vna = JSNum.nan)
    (hloE : isEmptyVal vlo = false) (hlo : toNumber vlo = JSNum.finite qlo)
    (hmin : (validationOf field).min = some mlo) (hlolt : qlo < mlo)
    (heqE : isEmptyVal veq = false) (heq : toNumber veq = JSNum.finite qeq)
    (heqmin : minPasses (validationOf field) qeq = true)
    (heqmax : maxPasses (validationOf field) qeq = true)
    (hhiE : isEmptyVal vhi = false) (hhi : toNumber vhi = JSNum.finite qhi)
    (hhimin : minPasses (validationOf field) qhi = true)
    (hmax : (validationOf field).max = some mhi) (hhigt : mhi < qhi) :
    validateField vna field = Except.ok (some (fieldLabel field ++ " must be a number"))
    ∧ validateField vlo field
        = Except.ok (some (fieldLabel field ++ " must be at least " ++ ratToString mlo))
    ∧ validateField veq field = Except.ok none
    ∧ validateField vhi field
        = Except.ok (some (fieldLabel field ++ " must be at most " ++ ratToString mhi)) := by
  refine ⟨?_, ?_, ?_, ?_⟩
  · rw [validateField_number_eq vna field htype hnaE]
    simp [numberCheck, hna]
  · rw [validateField_number_eq vlo field htype hloE]
    simp [numberCheck, hlo, hmin, jsLtQ, hlolt]
  · rw [validateField_number_eq veq field htype heqE]
    have hge : ∀ mn, (validationOf field).min = some mn → mn ≤ qeq := by
      intro mn hmn
      have h2 := heqmin
      unfold minPasses at h2
      rw [hmn] at h2
      exact of_decide_eq_true h2
    have hle : ∀ mx, (validationOf field).max = some mx → qeq ≤ mx := by
      intro mx hmx
      have h2 := heqmax
      unfold maxPasses at h2
      rw [hmx] at h2
      exact of_decide_eq_true h2
    cases hmn : (validationOf field).min with
    | none =>
      cases hmx : (validationOf field).max with
      | none => simp [numberCheck, heq, hmn, hmx]
      | some mx => simp [numberCheck, heq, hmn, hmx, jsGtQ, not_lt.mpr (hle mx hmx)]
    | some mn =>
      cases hmx : (validationOf field).max with
      | none => simp [numberCheck, heq, hmn, hmx, jsLtQ, not_lt.mpr (hge mn hmn)]
      | some mx =>
        simp [numberCheck, heq, hmn, hmx, jsLtQ, jsGtQ, not_lt.mpr (hge mn hmn),
          not_lt.mpr (hle mx hmx)]
  · rw [validateField_number_eq vhi field htype hhiE]
    have hge : ∀ mn, (validationOf field).min = some mn → mn ≤ qhi := by
      intro mn hmn
      have h2 := hhimin
      unfold minPasses at h2
      rw [hmn] at h2
      exact of_decide_eq_true h2
    cases hmn : (validationOf field).min with
    | none => simp [numberCheck, hhi, hmn, hmax, jsGtQ, hhigt]
    | some mn =>
      simp [numberCheck, hhi, hmn, hmax, jsLtQ, jsGtQ, not_lt.mpr (hge mn hmn), hhigt]

/-- C7, witness for `c7_number_validation` on the field `price` with bounds
`min = 10`, `max = 20`, at the values `{}` (coerces to `NaN`), `5`, `10` (boundary)
and `21`. -/
theorem c7_number_validation_witness :
    validateField (JSValue.obj []) priceField
        = Except.ok (some (fieldLabel priceField ++ " must be a number"))
    ∧ validateField (JSValue.vNum 5) priceField
        = Except.ok (some (fieldLabel priceField ++ " must be at least " ++ ratToString 10))
    ∧ validateField (JSValue.vNum 10) priceField = Except.ok none
    ∧ validateField (JSValue.vNum 21) priceField
        = Except.ok (some (fieldLabel priceField ++ " must be at most " ++ ratToString 20)) :=
  c7_number_validation priceField (JSValue.obj []) (JSValue.vNum 5) (JSValue.vNum 10)
    (JSValue.vNum 21) 5 10 21 10 20 rfl rfl rfl rfl rfl rfl (by decide) rfl rfl
    (by decide) (by decide) rfl rfl (by decide) rfl (by decide)

/-- The modelled constructor sits on the correct side of JavaScript's validity
boundary: it rejects genuinely invalid patterns of every `SyntaxError` class —
nothing to repeat, out-of-order class range, out-of-order brace quantifier,
unmatched and unterminated groups and classes, dangling escape — and the patterns it
accepts are JavaScript-valid representatives of anchors, groups, alternation,
classes, escapes and quantifiers. -/
theorem regExpCompile_boundary :
    (regExpCompile "*").isNone = true
    ∧ (regExpCompile "[b-a]").isNone = true
    ∧ (regExpCompile "a{2,1}").isNone = true
    ∧ (regExpCompile "(").isNone = true
    ∧ (regExpCompile "x)").isNone = true
    ∧ (regExpCompile "[ab").isNone = true
    ∧ (regExpCompile "\\").isNone = true
    ∧ (regExpCompile "a**").isNone = true
    ∧ (regExpCompile "^a(b|c)*[d-f]{2,3}$").isSome = true
    ∧ (regExpCompile "(?:ab)+?").isSome = true
    ∧ (regExpCompile "[^a-z0-9]\\d{3,}").isSome = true := by decide

/-- Assignment `errors[k] = e` preserves key uniqueness of the error mapping. -/
theorem setErr_keys_nodup (errs : List (String × String)) (k e : String)
    (h : (errs.map Prod.fst).Nodup) : ((setErr errs k e).map Prod.fst).Nodup := by
  unfold setErr
  cases hany : errs.any (fun p => decide (p.1 = k)) with
  | true =>
    simp only [hany, if_true]
    have hkeys : (errs.map (fun p => if p.1 = k then (k, e) else p)).map Prod.fst
        = errs.map Prod.fst := by
      rw [List.map_map]
      apply List.map_congr_left
      intro p _
      by_cases hp : p.1 = k
      · simp [hp]
      · simp [hp]
    rw [hkeys]
    exact h
  | false =>
    simp only [hany, if_false, Bool.false_eq_true]
    rw [List.map_append]
    simp only [List.map_cons, List.map_nil]
    rw [List.nodup_append]
    refine ⟨h, List.nodup_singleton k, ?_⟩
    intro a ha hk
    rcases List.mem_map.mp ha with ⟨p, hp, hpa⟩
    rw [List.mem_singleton] at hk
    have hno := List.any_eq_false.mp hany p hp
    simp at hno
    exact hno (hpa.trans hk)

/-- The field loop keeps the error mapping's keys unique. -/
theorem validateFields_nodup (data : RecordV) (fields : List ModelField) :
    ∀ (acc errs : List (String × String)),
      (acc.map Prod.fst).Nodup →
      validateFields data fields acc = Except.ok errs →
      (errs.map Prod.fst).Nodup := by
  induction fields with
  | nil =>
    intro acc errs hacc h
    unfold validateFields at h
    injection h with h2
    rw [← h2]
    exact hacc
  | cons f rest ih =>
    intro acc errs hacc h
    unfold validateFields at h
    split at h
    · exact absurd h (by simp)
    · exact ih _ errs (setErr_keys_nodup _ _ _ hacc) h
    · exact ih _ errs hacc h

/-- C8: `validateField` computes the required flag as the truthiness-OR of the two
legacy locations; an empty value (null / undefined / empty string) fails with
"<label or name> is required" exactly when that flag holds, and otherwise passes
with no further checks run; and a completed validation pass reports at most one
error per field name — the error mapping's keys are unique. -/
theorem c8_required_merge_single_error (v : JSValue) (field : ModelField)
    (data : RecordV) (m : ModelDef) (errs : List (String × String))
    (he : isEmptyVal v = true)
    (hvm : validateModelData data m = Except.ok errs) :
    (validateField v field = Except.ok (some (fieldLabel field ++ " is required"))
      ↔ isRequiredOf field = true)
    ∧ (isRequiredOf field = false → validateField v field = Except.ok none)
    ∧ (errs.map Prod.fst).Nodup := by
  refine ⟨⟨?_, ?_⟩, ?_, validateFields_nodup data m.fields [] errs (by simp) hvm⟩
  · intro hres
    cases hq : isRequiredOf field with
    | true => rfl
    | false =>
      have hnone : validateField v field = Except.ok none := by
        simp [validateField, he, hq]
      rw [hnone] at hres
      simp at hres
  · intro hreq
    simp [validateField, he, hreq]
  · intro hreq
    simp [validateField, he, hreq]

/-- C8, witness for `c8_required_merge_single_error` at `null` on the required
`name` field, with a validation pass over the model that yields exactly one
required-error. -/
theorem c8_required_merge_single_error_witness :
    (validateField JSValue.vNull nameField
        = Except.ok (some (fieldLabel nameField ++ " is required"))
      ↔ isRequiredOf nameField = true)
    ∧ (isRequiredOf nameField = false → validateField JSValue.vNull nameField = Except.ok none)
    ∧ (([("name", "name is required")] : List (String × String)).map Prod.fst).Nodup :=
  c8_required_merge_single_error JSValue.vNull nameField [] reqOnlyModel
    [("name", "name is required")] rfl (by decide)

/-- Lookup across concatenation: the left part wins. -/
theorem recLookup_append (a b : RecordV) (k : String) :
    recLookup (a ++ b) k
      = match recLookup a k with
        | some v => some v
        | none => recLookup b k := by
  induction a with
  | nil => rfl
  | cons hd tl ih =>
    by_cases hk : hd.1 = k
    · simp [recLookup, hk]
    · simp [recLookup, hk, ih]

/-- Lookup through the override pass of the spread: `a`'s binding with `b`'s value
substituted when `b` declares the property. -/
theorem recLookup_map_override (a b : RecordV) (k : String) :
    recLookup (a.map (fun p =>
        match recLookup b p.1 with
        | some v => (p.1, v)
        | none => p)) k
      = (recLookup a k).map (fun v => (recLookup b k).getD v) := by
  induction a with
  | nil => rfl
  | cons hd tl ih =>
    obtain ⟨ka, va⟩ := hd
    by_cases hk : ka = k
    · subst hk
      cases hb : recLookup b ka <;> simp [recLookup, hb]
    · cases hb : recLookup b ka <;> simp [recLookup, hb, hk, ih]

/-- Lookup through the new-properties pass of the spread: only properties `a` does
not already declare survive the filter. -/
theorem recLookup_filter_new (a b : RecordV) (k : String) :
    recLookup (b.filter (fun p => (recLookup a p.1).isNone)) k
      = match recLookup a k with
        | some _ => none
        | none => recLookup b k := by
  induction b with
  | nil => cases recLookup a k <;> rfl
  | cons hd tl ih =>
    obtain ⟨kb, vb⟩ := hd
    by_cases hk : kb = k
    · subst hk
      cases hb : recLookup a kb with
      | some w => simp [List.filter_cons, hb, ih]
      | none => simp [List.filter_cons, hb, recLookup]
    · cases hb : recLookup a kb with
      | some w =>
        simp [List.filter_cons, hb, ih, hk]
        cases hA : recLookup a k <;> simp [hA, recLookup, hk]
      | none => simp [List.filter_cons, hb, recLookup, hk, ih]

/-- Property read through the spread `{...a, ...b}`: `b`'s value if `b` declares the
property, else `a`'s read. -/
theorem getField_mergeRecords (a b : RecordV) (k : String) :
    getField (mergeRecords a b) k
      = match recLookup b k with
        | some v => v
        | none => getField a k := by
  unfold getField mergeRecords
  rw [recLookup_append, recLookup_map_override, recLookup_filter_new]
  cases hA : recLookup a k <;> cases hB : recLookup b k <;> simp [hA, hB]

/-- Appending a fresh binding is found when no earlier binding has its key. -/
theorem errLookup_append_fresh (errs : List (String × String)) (k e : String)
    (hno : ∀ p ∈ errs, p.1 ≠ k) : errLookup (errs ++ [(k, e)]) k = some e := by
  induction errs with
  | nil => simp [errLookup]
  | cons hd tl ih =>
    have h1 : hd.1 ≠ k := hno hd (by simp)
    simp only [List.cons_append, errLookup, h1, if_false]
    exact ih (fun p hp => hno p (by simp [hp]))

/-- The overwrite pass stores the new message under its key. -/
theorem errLookup_map_overwrite (errs : List (String × String)) (k e : String)
    (hyes : errs.any (fun p => decide (p.1 = k)) = true) :
    errLookup (errs.map (fun p => if p.1 = k then (k, e) else p)) k = some e := by
  induction errs with
  | nil => simp at hyes
  | cons hd tl ih =>
    by_cases h1 : hd.1 = k
    · simp [errLookup, h1]
    · have htl : tl.any (fun p => decide (p.1 = k)) = true := by
        simpa [List.any_cons, h1] using hyes
      simp [errLookup, h1, ih htl]

/-- Assignment `errors[k] = e` makes `errors[k]` read back `e`. -/
theorem errLookup_setErr_self (errs : List (String × String)) (k e : String) :
    errLookup (setErr errs k e) k = some e := by
  unfold setErr
  cases hany : errs.any (fun p => decide (p.1 = k)) with
  | true =>
    simp only [hany, if_true]
    exact errLookup_map_overwrite errs k e hany
  | false =>
    simp only [hany, Bool.false_eq_true, if_false]
    refine errLookup_append_fresh errs k e ?_
    intro p hp
    have := List.any_eq_false.mp hany p hp
    simpa using this

/-- The overwrite pass leaves every other key's read unchanged. -/
theorem errLookup_map_ne (errs : List (String × String)) (k e k' : String)
    (hk : k' ≠ k) :
    errLookup (errs.map (fun p => if p.1 = k then (k, e) else p)) k'
      = errLookup errs k' := by
  induction errs with
  | nil => rfl
  | cons hd tl ih =>
    by_cases h1 : hd.1 = k
    · have hne : ¬ (k = k') := fun hc => hk hc.symm
      have hne2 : ¬ (hd.1 = k') := by rw [h1]; exact hne
      simp [errLookup, h1, hne, hne2, ih]
    · by_cases h2 : hd.1 = k'
      · simp only [List.map_cons, if_neg h1]
        simp [errLookup, h2]
      · simp only [List.map_cons, if_neg h1]
        simp [errLookup, if_neg h2, ih]

/-- Appending a fresh binding leaves every other key's read unchanged. -/
theorem errLookup_append_ne (errs : List (String × String)) (k e k' : String)
    (hk : k' ≠ k) : errLookup (errs ++ [(k, e)]) k' = errLookup errs k' := by
  induction errs with
  | nil =>
    have hne : ¬ (k = k') := fun hc => hk hc.symm
    simp [errLookup, hne]
  | cons hd tl ih =>
    by_cases h2 : hd.1 = k'
    · simp [errLookup, h2]
    · simp [errLookup, h2, ih]

/-- Assignment `errors[k] = e` leaves every other key's read unchanged. -/
theorem errLookup_setErr_ne (errs : List (String × String)) (k e k' : String)
    (hk : k' ≠ k) : errLookup (setErr errs k e) k' = errLookup errs k' := by
  unfold setErr
  cases hany : errs.any (fun p => decide (p.1 = k)) with
  | true =>
    simp only [hany, if_true]
    exact errLookup_map_ne errs k e k' hk
  | false =>
    simp only [hany, Bool.false_eq_true, if_false]
    exact errLookup_append_ne errs k e k' hk

/-- A mapping with no binding for a key reads `none` there. -/
theorem errLookup_none_of_no_key (errs : List (String × String)) (k : String)
    (hno : ∀ p ∈ errs, p.1 ≠ k) : errLookup errs k = none := by
  induction errs with
  | nil => rfl
  | cons hd tl ih =>
    simp [errLookup, hno hd (by simp)]
    exact ih (fun p hp => hno p (by simp [hp]))

/-- Every binding of `setErr errs k e` has a key of `errs` or the key `k`. -/
theorem setErr_key_mem (errs : List (String × String)) (k e : String) (p : String × String)
    (hp : p ∈ setErr errs k e) : p.1 = k ∨ p.1 ∈ errs.map Prod.fst := by
  unfold setErr at hp
  cases hany : errs.any (fun q => decide (q.1 = k)) with
  | true =>
    rw [hany] at hp
    simp only [if_true] at hp
    rcases List.mem_map.mp hp with ⟨q, hq, hqe⟩
    by_cases h1 : q.1 = k
    · left
      rw [← hqe]
      simp [h1]
    · right
      rw [← hqe]
      simp [h1]
      exact ⟨q.2, hq⟩
  | false =>
    rw [hany] at hp
    simp only [Bool.false_eq_true, if_false] at hp
    rcases List.mem_append.mp hp with hq | hq
    · exact Or.inr (List.mem_map_of_mem Prod.fst hq)
    · left
      rw [List.mem_singleton] at hq
      rw [hq]

/-- Fields whose names differ from `k` never touch `errors[k]`. -/
theorem validateFields_untouched (data : RecordV) (k : String)
    (fields : List ModelField) :
    ∀ (acc errs : List (String × String)),
      k ∉ fields.map ModelField.name →
      validateFields data fields acc = Except.ok errs →
      errLookup errs k = errLookup acc k := by
  induction fields with
  | nil =>
    intro acc errs _ h
    unfold validateFields at h
    injection h with h2
    rw [h2]
  | cons g rest ih =>
    intro acc errs hk h
    have hkg : k ≠ g.name := by
      intro hc
      exact hk (by simp [hc])
    have hkr : k ∉ rest.map ModelField.name := by
      intro hc
      exact hk (by simp [hc])
    unfold validateFields at h
    split at h
    · exact absurd h (by simp)
    · rw [ih _ errs hkr h]
      exact errLookup_setErr_ne acc g.name _ k hkg
    · exact ih _ errs hkr h

/-- In a completed validation pass over a model with unique field names, the error
mapping at a field's name is exactly that field's `validateField` result on
`data[field.name]`. -/
theorem validateFields_errLookup (data : RecordV) (f : ModelField)
    (fields : List ModelField) :
    ∀ (acc errs : List (String × String)),
      f ∈ fields →
      (fields.map ModelField.name).Nodup →
      (∀ p ∈ acc, p.1 ∉ fields.map ModelField.name) →
      validateFields data fields acc = Except.ok errs →
      validateField (getField data f.name) f = Except.ok (errLookup errs f.name) := by
  induction fields with
  | nil =>
    intro acc errs hf
    exact absurd hf (List.not_mem_nil f)
  | cons g rest ih =>
    intro acc errs hf hnd hacc h
    have hgrest : g.name ∉ rest.map ModelField.name := by
      have := hnd
      rw [List.map_cons, List.nodup_cons] at this
      exact this.1
    have hndr : (rest.map ModelField.name).Nodup := by
      have := hnd
      rw [List.map_cons, List.nodup_cons] at this
      exact this.2
    unfold validateFields at h
    rcases List.mem_cons.mp hf with hfg | hfr
    · subst hfg
      split at h
      · exact absurd h (by simp)
      · rename_i msg heq
        rw [validateFields_untouched data f.name rest _ errs hgrest h]
        rw [errLookup_setErr_self]
        exact heq
      · rename_i heq
        rw [validateFields_untouched data f.name rest _ errs hgrest h]
        rw [errLookup_none_of_no_key acc f.name
          (fun p hp hc => hacc p hp (by simp [hc]))]
        exact heq
    · split at h
      · exact absurd h (by simp)
      · refine ih _ errs hfr hndr ?_ h
        intro p hp
        rcases setErr_key_mem acc g.name _ p hp with hpk | hpk
        · rw [hpk]
          exact hgrest
        · intro hc
          rcases List.mem_map.mp hpk with ⟨q, hq, hqe⟩
          exact hacc q hq (by simp [hqe, hc])
      · refine ih acc errs hfr hndr ?_ h
        intro p hp hc
        exact hacc p hp (by simp [hc])

/-- A required field fails on an empty value with the required message. -/
theorem validateField_required_empty (v : JSValue) (f : ModelField)
    (he : isEmptyVal v = true) (hreq : isRequiredOf f = true) :
    validateField v f = Except.ok (some (fieldLabel f ++ " is required")) := by
  simp [validateField, he, hreq]

/-- C10: the update flow validates the stored record overlaid with the payload
(`{...existingRecord, ...data}`), not the payload alone — for a model with unique
field names and a required field whose stored value validates, a payload that omits
the field yields no error for it, while a payload that explicitly sets it to `null`
or the empty string yields the required-error for it, and the PUT request (with
permission and ownership granted) is rejected with exactly that validation-failure
mapping. -/
theorem c10_put_validates_merged_record (user : User) (m : ModelDef) (f : ModelField)
    (existing dOmit dNull : RecordV) (id : String)
    (errs1 errs2 : List (String × String))
    (hf : f ∈ m.fields)
    (hnd : (m.fields.map ModelField.name).Nodup)
    (hreq : isRequiredOf f = true)
    (h1 : recLookup dOmit f.name = none)
    (hex : validateField (getField existing f.name) f = Except.ok none)
    (hv1 : validateModelData (mergeRecords existing dOmit) m = Except.ok errs1)
    (h2 : recLookup dNull f.name = some JSValue.vNull
          ∨ recLookup dNull f.name = some (JSValue.vStr ""))
    (hv2 : validateModelData (mergeRecords existing dNull) m = Except.ok errs2)
    (hperm : canPerformAction user.role Action.update m.permissions = true)
    (hown : ownershipGate user m existing = true) :
    errLookup errs1 f.name = none
    ∧ errLookup errs2 f.name = some (fieldLabel f ++ " is required")
    ∧ putRecord (some user) (some m) (some existing) id dNull
        = PutOutcome.validationFailed errs2 := by
  have hacc : ∀ p ∈ ([] : List (String × String)), p.1 ∉ m.fields.map ModelField.name := by
    intro p hp
    exact absurd hp (List.not_mem_nil p)
  have key1 := validateFields_errLookup (mergeRecords existing dOmit) f m.fields [] errs1
    hf hnd hacc hv1
  have key2 := validateFields_errLookup (mergeRecords existing dNull) f m.fields [] errs2
    hf hnd hacc hv2
  have hg1 : getField (mergeRecords existing dOmit) f.name = getField existing f.name := by
    rw [getField_mergeRecords, h1]
  rw [hg1, hex] at key1
  injection key1 with key1e
  have p2 : errLookup errs2 f.name = some (fieldLabel f ++ " is required") := by
    rcases h2 with h2 | h2
    · have hg2 : getField (mergeRecords existing dNull) f.name = JSValue.vNull := by
        rw [getField_mergeRecords, h2]
      rw [hg2, validateField_required_empty JSValue.vNull f (by decide) hreq] at key2
      injection key2 with key2e
      exact key2e.symm
    · have hg2 : getField (mergeRecords existing dNull) f.name = JSValue.vStr "" := by
        rw [getField_mergeRecords, h2]
      rw [hg2, validateField_required_empty (JSValue.vStr "") f (by decide) hreq] at key2
      injection key2 with key2e
      exact key2e.symm
  refine ⟨key1e.symm, p2, ?_⟩
  have hne2 : errs2 ≠ [] := by
    intro hc
    rw [hc] at p2
    simp [errLookup] at p2
  simp [putRecord, hperm, hown, hv2, hne2]

/-- C10, witness for `c10_put_validates_merged_record`: the required field `name`
with stored value `"ok"`, an omitting payload `{other: "x"}` and a nulling payload
`{name: null}`, under a Manager with update permission and no owner field. -/
theorem c10_put_validates_merged_record_witness :
    errLookup [] nameField.name = none
    ∧ errLookup [("name", "name is required")] nameField.name
        = some (fieldLabel nameField ++ " is required")
    ∧ putRecord (some managerM1) (some reqOnlyModel) (some [("name", JSValue.vStr "ok")])
        "r1" [("name", JSValue.vNull)]
        = PutOutcome.validationFailed [("name", "name is required")] :=
  c10_put_validates_merged_record managerM1 reqOnlyModel nameField
    [("name", JSValue.vStr "ok")] [("other", JSValue.vStr "x")] [("name", JSValue.vNull)]
    "r1" [] [("name", "name is required")]
    (by decide) (by decide) (by decide) (by decide) (by decide) (by decide)
    (Or.inl (by decide)) (by decide) (by decide) rfl

/-- C3 (code bug): the owner-strip guard
`if (model.ownerField && data[model.ownerField]) delete data[model.ownerField]`
tests the payload's owner value for truthiness, so a payload setting the owner field
to a falsy value — here the empty string — is not stripped: Manager `m1`, updating a
record they own, changes the stored `ownerId` from `"m1"` to `""`, contradicting the
route's own comment "Don't allow changing owner" and the claimed owner-immutability
invariant. -/
theorem c3_owner_overwritten_by_falsy_payload :
    getField docRecord "ownerId" = JSValue.vStr "m1"
    ∧ putRecord (some managerM1) (some docModel) (some docRecord) "r1"
        [("ownerId", JSValue.vStr "")]
      = PutOutcome.ok docRecordOverwritten
    ∧ getField docRecordOverwritten "ownerId" = JSValue.vStr "" :=
  ⟨by decide, by decide, by decide⟩

end CrudRbac
